import Mathlib

/-!
Verification of the PFM codec in `src/pfm.rs` and `src/common.rs` of the
`pxm` crate.

Modelling conventions:
* `f32` values are represented by their IEEE-754 bit patterns, as natural
  numbers (`< 2^32` where it matters).  The Rust code never performs float
  arithmetic on pixel data — it only moves 32-bit words between memory and
  bytes — so this representation is exact.  The only float operations used
  are sign tests (`> 0.0`, `< 0.0`, `== 0.0`) and `-1.0 * x`, which are
  defined below directly on bit patterns (multiplication by `-1.0` is an
  exact sign-bit flip for every non-NaN input, and it is only applied to
  values whose sign is known).
* The decimal text codec for `f32` (`format!` / `str::parse::<f32>` from
  the Rust standard library, external to this repository) is passed as an
  explicit parameter `F32TextCodec`; properties of it that a theorem needs
  (e.g. the documented shortest-roundtrip guarantee of Rust float
  formatting) appear as hypotheses.  `tcDemo` below is a concrete instance
  agreeing with the real Rust behaviour on the finitely many tokens used
  in concrete inputs.
* Rust panics (failed slice indexing, failed `assert!`) are modelled as
  explicit error values `oobPanic` / `assertFailed`, so that "the code
  panics on this input" is an evaluable statement.
* `usize` is modelled as `Nat`; 64-bit overflow of `str::parse::<usize>`
  is not modelled (no claim depends on it).
-/

/-- Endianness flag, from `src/common.rs` (`enum Endian`). -/
inductive Endian
  | Big
  | Little
  deriving DecidableEq, Repr

/-- Error outcomes of the codec.  The Rust code reports errors as static
strings; each distinct message gets one constructor here, plus two
constructors for panics (out-of-bounds indexing and failed `assert!`). -/
inductive PFMError
  /-- "Reached EOF before finishing parsing" -/
  | unexpectedEof
  /-- "Tht first character must be 'P'" and "Tht second character must be 'F' or 'f'" -/
  | invalidMagic
  /-- "Invalid width" -/
  | invalidWidth
  /-- "Invalid height" -/
  | invalidHeight
  /-- "Invalid scale" -/
  | invalidScale
  /-- "Broken file. The length of image data is not equal to width * height * channels specified in the header" -/
  | payloadSizeMismatch
  /-- "File data is broken" -/
  | truncatedPayload
  /-- "The length of data is not equal to width * height * channels" (builder `build`) -/
  | dataLengthMismatch
  /-- "Invalid width or height" (encode) -/
  | encodeInvalidSize
  /-- "Invalid scaling factor" (encode) -/
  | encodeInvalidScale
  /-- "The length of image data is not equal to width * height * channels specified in the header" (encode) -/
  | encodeDataLengthMismatch
  /-- Rust panic from an out-of-bounds slice index. -/
  | oobPanic
  /-- Rust panic from a failed `assert!`. -/
  | assertFailed
  deriving DecidableEq, Repr

/-- The `PFM` struct from `src/pfm.rs`.  `scale_factor` and the elements of
`data` are `f32` bit patterns. -/
structure PFM where
  width : Nat
  height : Nat
  color : Bool
  scale_factor : Nat
  endian : Endian
  data : List Nat
  deriving DecidableEq, Repr

/-! ### f32 bit-pattern helpers -/

/-- Sign bit of an f32 bit pattern. -/
def f32SignMask : Nat := 0x80000000

/-- All bits of an f32 bit pattern except the sign. -/
def f32AbsMask : Nat := 0x7FFFFFFF

/-- Exponent field of an f32 bit pattern. -/
def f32ExpMask : Nat := 0x7F800000

/-- Mantissa field of an f32 bit pattern. -/
def f32FracMask : Nat := 0x007FFFFF

/-- Whether the bit pattern denotes an IEEE-754 NaN. -/
def isNaNF32 (s : Nat) : Bool :=
  (s &&& f32ExpMask == f32ExpMask) && (s &&& f32FracMask != 0)

/-- Rust `x == 0.0` on the bit pattern: true exactly for +0.0 and -0.0. -/
def eqZeroF32 (s : Nat) : Bool := s &&& f32AbsMask == 0

/-- Rust `x > 0.0` on the bit pattern: a non-NaN, non-zero value with clear
sign bit (includes subnormals and +inf). -/
def gtZeroF32 (s : Nat) : Bool :=
  !isNaNF32 s && (s &&& f32SignMask == 0) && (s &&& f32AbsMask != 0)

/-- Rust `x < 0.0` on the bit pattern. -/
def ltZeroF32 (s : Nat) : Bool :=
  !isNaNF32 s && (s &&& f32SignMask != 0) && (s &&& f32AbsMask != 0)

/-- Rust `-1.0 * x` / `-x`: an exact sign-bit flip (for non-NaN inputs,
which is the only way the code uses it). -/
def negF32 (s : Nat) : Nat := s ^^^ f32SignMask

/-! ### Builder (`PFMBuilder` in `src/pfm.rs`)

The Rust builder is a newtype around `PFM`; we model builder states as
`PFM` values directly, and each setter as a function.  `size` and `scale`
contain `assert!`s (modelled as the `assertFailed` outcome). -/

/-- `PFMBuilder::new()`: the default builder state (width 0, height 0,
color true, scale 1.0 — bit pattern `0x3F800000` —, little endian, no data). -/
def builderNew : PFM :=
  { width := 0, height := 0, color := true, scale_factor := 0x3F800000,
    endian := Endian.Little, data := [] }

/-- `PFMBuilder::size`: `assert!(width > 0 && height > 0)`, then set both. -/
def sizeSet (b : PFM) (width height : Nat) : Except PFMError PFM :=
  if 0 < width ∧ 0 < height then
    Except.ok { b with width := width, height := height }
  else Except.error PFMError.assertFailed

/-- `PFMBuilder::color`: set the color flag. -/
def colorSet (b : PFM) (color : Bool) : PFM := { b with color := color }

/-- `PFMBuilder::scale`: `assert!(scale != 0.0)`; a positive scale selects
big endian and is stored as is, a negative one selects little endian and is
stored negated; otherwise (NaN) nothing changes. -/
def scaleSet (b : PFM) (s : Nat) : Except PFMError PFM :=
  if eqZeroF32 s then Except.error PFMError.assertFailed
  else Except.ok
    (if gtZeroF32 s then { b with endian := Endian.Big, scale_factor := s }
     else if ltZeroF32 s then { b with endian := Endian.Little, scale_factor := negF32 s }
     else b)

/-- `PFMBuilder::data`: set the pixel data. -/
def dataSet (b : PFM) (data : List Nat) : PFM := { b with data := data }

/-- `PFMBuilder::build`: fails unless `data.len() == num_channels * num_pixels`. -/
def build (b : PFM) : Except PFMError PFM :=
  let num_channels := if b.color then 3 else 1
  let num_pixels := b.width * b.height
  if b.data.length ≠ num_channels * num_pixels then
    Except.error PFMError.dataLengthMismatch
  else Except.ok b

/-! ### Tokenizer (`read_until_space`) -/

/-- Rust `(byte as char).is_ascii_whitespace()`: space, tab, newline,
form feed, carriage return. -/
def isWsByte (c : Nat) : Bool :=
  c == 0x20 || c == 0x09 || c == 0x0A || c == 0x0C || c == 0x0D

/-- `read_until_space`: skip leading ASCII whitespace, fail with EOF if
nothing remains, otherwise return the maximal non-whitespace run and the
rest of the buffer (the terminator is not consumed). -/
def readUntilSpace (buffer : List Nat) : Except PFMError (List Nat × List Nat) :=
  let rest := buffer.dropWhile (fun c => isWsByte c)
  if rest.isEmpty then Except.error PFMError.unexpectedEof
  else Except.ok (rest.takeWhile (fun c => !isWsByte c),
                  rest.dropWhile (fun c => !isWsByte c))

/-! ### Numeric token parsing (`parse_token`) -/

/-- Value of an ASCII decimal digit byte, if it is one. -/
def digitVal (c : Nat) : Option Nat :=
  if 0x30 ≤ c ∧ c ≤ 0x39 then some (c - 0x30) else none

/-- Fold a run of decimal digit bytes onto an accumulator; fails on the
first non-digit. -/
def parseDigits (acc : Nat) : List Nat → Option Nat
  | [] => some acc
  | c :: t =>
    match digitVal c with
    | some d => parseDigits (acc * 10 + d) t
    | none => none

/-- Rust `str::parse::<usize>` on a token's bytes: an optional leading
`'+'` then at least one decimal digit (64-bit overflow not modelled). -/
def parseUsize (l : List Nat) : Option Nat :=
  match l with
  | [] => none
  | c :: t =>
    if c = 0x2B then (match t with | [] => none | _ :: _ => parseDigits 0 t)
    else match digitVal c with
      | some d => parseDigits d t
      | none => none

/-- The decimal text codec for `f32`: Rust standard library code
(`format!` for `Display`, `str::parse::<f32>` for `FromStr`), external to
this repository.  `fmt` maps a bit pattern to the bytes Rust prints for
it; `parse` maps a token's bytes to the bit pattern Rust parses, if any. -/
structure F32TextCodec where
  fmt : Nat → List Nat
  parse : List Nat → Option Nat

/-! ### Header parsing (`parse_header`) -/

/-- Magic-token handling of `parse_header`: `header_pf[0]` must be `'P'`
(indexing an empty token would panic, though the tokenizer never yields
one), then `header_pf[1]` — a panic when the token has length 1 — selects
color for `'F'`, monochrome for `'f'`. -/
def parseMagic (header_pf : List Nat) : Except PFMError Bool :=
  match header_pf with
  | [] => Except.error PFMError.oobPanic
  | [c0] =>
    if c0 ≠ 0x50 then Except.error PFMError.invalidMagic
    else Except.error PFMError.oobPanic
  | c0 :: c1 :: _ =>
    if c0 ≠ 0x50 then Except.error PFMError.invalidMagic
    else if c1 = 0x46 then Except.ok true
    else if c1 = 0x66 then Except.ok false
    else Except.error PFMError.invalidMagic

/-- `parse_header`: magic, width, height, scale, then drop one separator
byte (`&buffer[1..]` — a panic when the buffer ended right after the scale
token) and return the builder state and the payload region. -/
def parseHeader (tc : F32TextCodec) (buffer : List Nat) :
    Except PFMError (PFM × List Nat) :=
  match readUntilSpace buffer with
  | Except.error e => Except.error e
  | Except.ok (header_pf, buffer1) =>
  match parseMagic header_pf with
  | Except.error e => Except.error e
  | Except.ok color =>
  match readUntilSpace buffer1 with
  | Except.error e => Except.error e
  | Except.ok (header_width, buffer2) =>
  match parseUsize header_width with
  | none => Except.error PFMError.invalidWidth
  | some width =>
  if width = 0 then Except.error PFMError.invalidWidth else
  match readUntilSpace buffer2 with
  | Except.error e => Except.error e
  | Except.ok (header_height, buffer3) =>
  match parseUsize header_height with
  | none => Except.error PFMError.invalidHeight
  | some height =>
  if height = 0 then Except.error PFMError.invalidHeight else
  match sizeSet (colorSet builderNew color) width height with
  | Except.error e => Except.error e
  | Except.ok b1 =>
  match readUntilSpace buffer3 with
  | Except.error e => Except.error e
  | Except.ok (header_scale, buffer4) =>
  match tc.parse header_scale with
  | none => Except.error PFMError.invalidScale
  | some scale =>
  if eqZeroF32 scale then Except.error PFMError.invalidScale else
  match scaleSet b1 scale with
  | Except.error e => Except.error e
  | Except.ok b2 =>
  match buffer4 with
  | [] => Except.error PFMError.oobPanic
  | _ :: payload => Except.ok (b2, payload)

/-! ### Payload byte codec (`byteorder` calls) -/

/-- One f32 bit pattern from four payload bytes in the given byte order
(`byteorder::ReadBytesExt::read_f32`). -/
def f32FromBytes (endian : Endian) (b0 b1 b2 b3 : Nat) : Nat :=
  match endian with
  | Endian.Little => b0 + 0x100 * b1 + 0x10000 * b2 + 0x1000000 * b3
  | Endian.Big => b3 + 0x100 * b2 + 0x10000 * b1 + 0x1000000 * b0

/-- Four payload bytes of one f32 bit pattern in the given byte order
(`byteorder::WriteBytesExt::write_f32`). -/
def f32ToBytes (endian : Endian) (s : Nat) : List Nat :=
  match endian with
  | Endian.Little =>
    [s % 0x100, s / 0x100 % 0x100, s / 0x10000 % 0x100, s / 0x1000000 % 0x100]
  | Endian.Big =>
    [s / 0x1000000 % 0x100, s / 0x10000 % 0x100, s / 0x100 % 0x100, s % 0x100]

/-- `Cursor::read_f32_into` on a freshly allocated vector of `count`
zeros: fails (`"File data is broken"`) unless `4 * count` bytes are
available, otherwise yields the `count` decoded bit patterns in order. -/
def readF32s (endian : Endian) (count : Nat) (buf : List Nat) :
    Except PFMError (List Nat) :=
  if buf.length < 4 * count then Except.error PFMError.truncatedPayload
  else Except.ok ((List.range count).map (fun i =>
    f32FromBytes endian (buf.getD (4 * i) 0) (buf.getD (4 * i + 1) 0)
      (buf.getD (4 * i + 2) 0) (buf.getD (4 * i + 3) 0)))

/-! ### Vertical flip (the swap loop in `decode`) -/

/-- `Vec::swap` for the in-bounds indices used by the flip (out-of-bounds
`List.set` / `List.getD` are benign, and the loop below only ever swaps in
bounds when the data has the checked length). -/
def swapIdx (l : List Nat) (a b : Nat) : List Nat :=
  (l.set a (l.getD b 0)).set b (l.getD a 0)

/-- The inner column loop: `for col in 0..n { swap(aBase+col, bBase+col) }`,
written with shifting bases (swap the current base pair, recurse on the
rest of the row). -/
def swapCols (aBase bBase : Nat) : Nat → List Nat → List Nat
  | 0, l => l
  | n + 1, l => swapCols (aBase + 1) (bBase + 1) n (swapIdx l aBase bBase)

/-- The outer row loop of the flip: starting from `row`, with the loop
bound as fuel, stop as soon as `row >= height - 1 - row`, otherwise swap
row `row` with row `height - 1 - row` and continue. -/
def flipAux (W h : Nat) : Nat → Nat → List Nat → List Nat
  | _, 0, l => l
  | row, fuel + 1, l =>
    if h - 1 - row ≤ row then l
    else flipAux W h (row + 1) fuel (swapCols (row * W) ((h - 1 - row) * W) W l)

/-- The vertical flip performed by `decode` on rows of `W = width *
num_channels` samples (`for row in 0..height { if row >= height-1-row {
break } ... }`). -/
def verticalFlip (W h : Nat) (l : List Nat) : List Nat := flipAux W h 0 h l

/-! ### decode -/

/-- `decode` from `src/pfm.rs`: parse the header, check the payload size
(`num_pixels * num_channels != buffer.len() / 4` — integer division), read
the f32 words, flip the rows vertically, and build. -/
def decode (tc : F32TextCodec) (buffer : List Nat) : Except PFMError PFM :=
  match parseHeader tc buffer with
  | Except.error e => Except.error e
  | Except.ok (b, buf) =>
    let num_channels := if b.color then 3 else 1
    let num_pixels := b.width * b.height
    if num_pixels * num_channels ≠ buf.length / 4 then
      Except.error PFMError.payloadSizeMismatch
    else match readF32s b.endian (num_pixels * num_channels) buf with
      | Except.error e => Except.error e
      | Except.ok data =>
        build (dataSet b (verticalFlip (b.width * num_channels) b.height data))

/-! ### encode -/

/-- Decimal bytes Rust prints for a `usize` (standard decimal notation). -/
def natDecimal (n : Nat) : List Nat :=
  if n = 0 then [0x30]
  else (Nat.digits 10 n).reverse.map (fun d => d + 0x30)

/-- The signed scale written by `encode`:
`match endian { Little => -1.0 * scale_factor, Big => scale_factor }`. -/
def encodeScaleBits (pfm : PFM) : Nat :=
  match pfm.endian with
  | Endian.Little => negF32 pfm.scale_factor
  | Endian.Big => pfm.scale_factor

/-- The payload bytes written by `encode`: logical rows from last to
first, each row's `width * num_channels` samples in order, each sample as
four bytes in the image's byte order (`cursor = row * width *
num_channels + col`). -/
def encodePayload (pfm : PFM) : List Nat :=
  let num_channels := if pfm.color then 3 else 1
  (List.range pfm.height).reverse.flatMap (fun row =>
    (List.range (pfm.width * num_channels)).flatMap (fun col =>
      f32ToBytes pfm.endian
        (pfm.data.getD (row * pfm.width * num_channels + col) 0)))

/-- `encode` from `src/pfm.rs`: reject zero dimensions, zero scale and a
data length mismatch, then emit magic line, dimension line, scale line and
the payload. -/
def encode (tc : F32TextCodec) (pfm : PFM) : Except PFMError (List Nat) :=
  if pfm.width = 0 ∨ pfm.height = 0 then Except.error PFMError.encodeInvalidSize
  else if eqZeroF32 pfm.scale_factor then Except.error PFMError.encodeInvalidScale
  else
    let num_channels := if pfm.color then 3 else 1
    if pfm.width * pfm.height * num_channels ≠ pfm.data.length then
      Except.error PFMError.encodeDataLengthMismatch
    else Except.ok
      ((if pfm.color then [0x50, 0x46] else [0x50, 0x66]) ++ [0x0A]
        ++ natDecimal pfm.width ++ [0x20] ++ natDecimal pfm.height ++ [0x0A]
        ++ tc.fmt (encodeScaleBits pfm) ++ [0x0A]
        ++ encodePayload pfm)

/-- Demo instance of the external f32 text codec, agreeing with the Rust
standard library on the finitely many tokens exercised by the concrete
inputs below: Rust parses the token "1" (and "1.0") to 1.0f32 (bits
`0x3F800000`), "-1" (and "-1.0") to -1.0f32 (bits `0xBF800000`), and
prints 1.0f32 as "1" and -1.0f32 as "-1" (shortest roundtrip form, as in
the repository's own `test_write_into`). -/
def tcDemo : F32TextCodec :=
  { fmt := fun s =>
      if s = 0x3F800000 then [0x31]
      else if s = 0xBF800000 then [0x2D, 0x31]
      else [],
    parse := fun l =>
      if l = [0x31] then some 0x3F800000
      else if l = [0x2D, 0x31] then some 0xBF800000
      else if l = [0x31, 0x2E, 0x30] then some 0x3F800000
      else if l = [0x2D, 0x31, 0x2E, 0x30] then some 0xBF800000
      else none }

/-! ### Lemmas about f32 bit patterns -/

theorem negF32_negF32 (s : Nat) : negF32 (negF32 s) = s := by
  simp [negF32, Nat.xor_assoc]

theorem and_exp_negF32 (s : Nat) : negF32 s &&& f32ExpMask = s &&& f32ExpMask := by
  have h : f32SignMask &&& f32ExpMask = 0 := by decide
  simp [negF32, Nat.and_xor_distrib_right, h]

theorem and_frac_negF32 (s : Nat) : negF32 s &&& f32FracMask = s &&& f32FracMask := by
  have h : f32SignMask &&& f32FracMask = 0 := by decide
  simp [negF32, Nat.and_xor_distrib_right, h]

theorem and_abs_negF32 (s : Nat) : negF32 s &&& f32AbsMask = s &&& f32AbsMask := by
  have h : f32SignMask &&& f32AbsMask = 0 := by decide
  simp [negF32, Nat.and_xor_distrib_right, h]

theorem and_sign_negF32 (s : Nat) :
    negF32 s &&& f32SignMask = (s &&& f32SignMask) ^^^ f32SignMask := by
  simp [negF32, Nat.and_xor_distrib_right]

theorem isNaNF32_negF32 (s : Nat) : isNaNF32 (negF32 s) = isNaNF32 s := by
  simp [isNaNF32, and_exp_negF32, and_frac_negF32]

theorem and_sign_cases (s : Nat) :
    s &&& f32SignMask = 0 ∨ s &&& f32SignMask = f32SignMask := by
  have h2 : f32SignMask = 2 ^ 31 := by norm_num [f32SignMask]
  rw [h2, Nat.and_two_pow]
  cases hb : s.testBit 31
  · left
    rfl
  · right
    norm_num

theorem gtZeroF32_negF32 {s : Nat} (h : ltZeroF32 s = true) :
    gtZeroF32 (negF32 s) = true := by
  simp only [ltZeroF32, Bool.and_eq_true, Bool.not_eq_true', bne_iff_ne, ne_eq,
    beq_iff_eq] at h
  obtain ⟨⟨hnan, hsign⟩, habs⟩ := h
  have hsign2 : s &&& f32SignMask = f32SignMask := by
    rcases and_sign_cases s with h0 | h1
    · exact absurd h0 hsign
    · exact h1
  simp only [gtZeroF32, Bool.and_eq_true, Bool.not_eq_true', bne_iff_ne, ne_eq,
    beq_iff_eq, isNaNF32_negF32, and_sign_negF32, and_abs_negF32]
  refine ⟨⟨hnan, ?_⟩, habs⟩
  simp [hsign2]

theorem ltZeroF32_negF32 {s : Nat} (h : gtZeroF32 s = true) :
    ltZeroF32 (negF32 s) = true := by
  simp only [gtZeroF32, Bool.and_eq_true, Bool.not_eq_true', bne_iff_ne, ne_eq,
    beq_iff_eq] at h
  obtain ⟨⟨hnan, hsign⟩, habs⟩ := h
  simp only [ltZeroF32, Bool.and_eq_true, Bool.not_eq_true', bne_iff_ne, ne_eq,
    beq_iff_eq, isNaNF32_negF32, and_sign_negF32, and_abs_negF32]
  refine ⟨⟨hnan, ?_⟩, habs⟩
  simp [hsign]
  decide

theorem eqZeroF32_of_gtZeroF32 {s : Nat} (h : gtZeroF32 s = true) :
    eqZeroF32 s = false := by
  simp only [gtZeroF32, Bool.and_eq_true, Bool.not_eq_true', bne_iff_ne, ne_eq,
    beq_iff_eq] at h
  simp only [eqZeroF32, beq_eq_false_iff_ne, ne_eq]
  exact h.2

theorem eqZeroF32_of_ltZeroF32 {s : Nat} (h : ltZeroF32 s = true) :
    eqZeroF32 s = false := by
  simp only [ltZeroF32, Bool.and_eq_true, Bool.not_eq_true', bne_iff_ne, ne_eq,
    beq_iff_eq] at h
  simp only [eqZeroF32, beq_eq_false_iff_ne, ne_eq]
  exact h.2

/-! ### Lemmas about the tokenizer -/

theorem takeWhile_append_all {p : Nat → Bool} (l r : List Nat)
    (h : ∀ c ∈ l, p c = true) : (l ++ r).takeWhile p = l ++ r.takeWhile p := by
  induction l with
  | nil => simp
  | cons c t ih =>
    have hc := h c (List.mem_cons_self c t)
    have ih' := ih fun x hx => h x (List.mem_cons_of_mem c hx)
    simp [List.takeWhile_cons, hc, ih']

theorem dropWhile_append_all {p : Nat → Bool} (l r : List Nat)
    (h : ∀ c ∈ l, p c = true) : (l ++ r).dropWhile p = r.dropWhile p := by
  induction l with
  | nil => simp
  | cons c t ih =>
    simp only [List.cons_append, List.dropWhile_cons, h c (List.mem_cons_self c t),
      if_true]
    exact ih fun x hx => h x (List.mem_cons_of_mem c hx)

/-- On a buffer holding a non-empty whitespace-free token followed by a
whitespace byte, the tokenizer yields exactly that token and leaves the
separator unconsumed. -/
theorem readUntilSpace_token (tok : List Nat) (d : Nat) (t : List Nat)
    (hne : tok ≠ []) (hall : ∀ c ∈ tok, isWsByte c = false)
    (hd : isWsByte d = true) :
    readUntilSpace (tok ++ d :: t) = Except.ok (tok, d :: t) := by
  obtain ⟨c, tok', rfl⟩ : ∃ c tok', tok = c :: tok' := by
    cases tok with
    | nil => exact absurd rfl hne
    | cons c tok' => exact ⟨c, tok', rfl⟩
  have hdrop : (c :: tok' ++ d :: t).dropWhile (fun x => isWsByte x) =
      c :: tok' ++ d :: t := by
    simp [List.dropWhile_cons, hall c (List.mem_cons_self c tok')]
  have htake : (c :: tok' ++ d :: t).takeWhile (fun x => !isWsByte x) =
      c :: tok' := by
    have := takeWhile_append_all (p := fun x => !isWsByte x) (c :: tok') (d :: t)
      (fun x hx => by simp [hall x hx])
    rw [this]
    simp [List.takeWhile_cons, hd]
  have hdrop2 : (c :: tok' ++ d :: t).dropWhile (fun x => !isWsByte x) = d :: t := by
    have := dropWhile_append_all (p := fun x => !isWsByte x) (c :: tok') (d :: t)
      (fun x hx => by simp [hall x hx])
    rw [this]
    simp [List.dropWhile_cons, hd]
  simp only [readUntilSpace, hdrop, htake, hdrop2]
  simp

/-- On a buffer that is exactly a non-empty whitespace-free token, the
tokenizer yields the token and an empty remainder. -/
theorem readUntilSpace_token_eof (tok : List Nat)
    (hne : tok ≠ []) (hall : ∀ c ∈ tok, isWsByte c = false) :
    readUntilSpace tok = Except.ok (tok, []) := by
  obtain ⟨c, tok', rfl⟩ : ∃ c tok', tok = c :: tok' := by
    cases tok with
    | nil => exact absurd rfl hne
    | cons c tok' => exact ⟨c, tok', rfl⟩
  have hdrop : (c :: tok').dropWhile (fun x => isWsByte x) = c :: tok' := by
    simp [List.dropWhile_cons, hall c (List.mem_cons_self c tok')]
  have htake : (c :: tok').takeWhile (fun x => !isWsByte x) = c :: tok' := by
    have := takeWhile_append_all (p := fun x => !isWsByte x) (c :: tok') []
      (fun x hx => by simp [hall x hx])
    simpa using this
  have hdrop2 : (c :: tok').dropWhile (fun x => !isWsByte x) = [] := by
    have := dropWhile_append_all (p := fun x => !isWsByte x) (c :: tok') []
      (fun x hx => by simp [hall x hx])
    simpa using this
  simp only [readUntilSpace, hdrop, htake, hdrop2]
  simp

/-! ### Lemmas about numeric token parsing -/

theorem parseDigits_all_digits (l : List Nat) :
    ∀ acc : Nat, (∀ c ∈ l, 0x30 ≤ c ∧ c ≤ 0x39) →
    parseDigits acc l = some (l.foldl (fun a c => a * 10 + (c - 0x30)) acc) := by
  induction l with
  | nil => intro acc _; rfl
  | cons c t ih =>
    intro acc h
    have hc := h c (List.mem_cons_self c t)
    simp only [parseDigits, digitVal, if_pos hc, List.foldl_cons]
    exact ih _ fun x hx => h x (List.mem_cons_of_mem c hx)

theorem parseUsize_all_digits (l : List Nat) (hne : l ≠ [])
    (h : ∀ c ∈ l, 0x30 ≤ c ∧ c ≤ 0x39) :
    parseUsize l = some (l.foldl (fun a c => a * 10 + (c - 0x30)) 0) := by
  obtain ⟨c, t, rfl⟩ : ∃ c t, l = c :: t := by
    cases l with
    | nil => exact absurd rfl hne
    | cons c t => exact ⟨c, t, rfl⟩
  have hc := h c (List.mem_cons_self c t)
  have hcne : c ≠ 0x2B := by omega
  simp only [parseUsize, if_neg hcne, digitVal, if_pos hc, List.foldl_cons]
  have := parseDigits_all_digits t (0 * 10 + (c - 0x30)) fun x hx =>
    h x (List.mem_cons_of_mem c hx)
  simpa using this

theorem foldr_mul_add_eq_ofDigits (l : List Nat) :
    l.foldr (fun d a => a * 10 + d) 0 = Nat.ofDigits 10 l := by
  induction l with
  | nil => simp [Nat.ofDigits]
  | cons d t ih =>
    simp only [List.foldr_cons, ih, Nat.ofDigits_cons]
    ring

theorem natDecimal_all_digits (n : Nat) :
    ∀ c ∈ natDecimal n, 0x30 ≤ c ∧ c ≤ 0x39 := by
  intro c hc
  unfold natDecimal at hc
  by_cases h : n = 0
  · rw [if_pos h] at hc
    have hc2 : c = 0x30 := by simpa using hc
    omega
  · simp only [if_neg h, List.mem_map, List.mem_reverse] at hc
    obtain ⟨d, hd, rfl⟩ := hc
    have := Nat.digits_lt_base (by norm_num) hd
    omega

theorem natDecimal_ne_nil (n : Nat) : natDecimal n ≠ [] := by
  unfold natDecimal
  by_cases h : n = 0
  · simp [h]
  · simp only [if_neg h, ne_eq, List.map_eq_nil_iff, List.reverse_eq_nil_iff]
    exact Nat.digits_ne_nil_iff_ne_zero.mpr h

theorem natDecimal_not_ws (n : Nat) : ∀ c ∈ natDecimal n, isWsByte c = false := by
  intro c hc
  have := natDecimal_all_digits n c hc
  simp only [isWsByte, Bool.or_eq_false_iff, beq_eq_false_iff_ne, ne_eq]
  omega

/-- Parsing the decimal representation of a `usize` recovers it (the
round-trip the header relies on for width and height). -/
theorem parseUsize_natDecimal (n : Nat) : parseUsize (natDecimal n) = some n := by
  by_cases h : n = 0
  · subst h
    rfl
  · rw [parseUsize_all_digits (natDecimal n) (natDecimal_ne_nil n)
      (natDecimal_all_digits n)]
    congr 1
    unfold natDecimal
    rw [if_neg h]
    have hmap : ((Nat.digits 10 n).reverse.map (fun d => d + 0x30)).foldl
        (fun a c => a * 10 + (c - 0x30)) 0 =
        (Nat.digits 10 n).reverse.foldl (fun a d => a * 10 + d) 0 := by
      rw [List.foldl_map]
      apply List.foldl_ext
      intro a d _
      omega
    rw [hmap, List.foldl_reverse, foldr_mul_add_eq_ofDigits]
    exact Nat.ofDigits_digits 10 n

/-! ### Lemmas about the payload byte codec -/

theorem f32ToBytes_length (e : Endian) (s : Nat) : (f32ToBytes e s).length = 4 := by
  cases e <;> rfl

theorem f32FromBytes_f32ToBytes (e : Endian) {s : Nat} (h : s < 2 ^ 32) :
    f32FromBytes e ((f32ToBytes e s).getD 0 0) ((f32ToBytes e s).getD 1 0)
      ((f32ToBytes e s).getD 2 0) ((f32ToBytes e s).getD 3 0) = s := by
  cases e <;> simp only [f32ToBytes, f32FromBytes, List.getD_cons_zero,
    List.getD_cons_succ] <;> omega

theorem getD_append_left {β : Type} {l r : List β} {i : Nat} (h : i < l.length)
    (d : β) : (l ++ r).getD i d = l.getD i d := by
  simp [List.getD_eq_getElem?_getD, List.getElem?_append_left h]

theorem getD_append_right {β : Type} {l r : List β} {i : Nat} (h : l.length ≤ i)
    (d : β) : (l ++ r).getD i d = r.getD (i - l.length) d := by
  simp [List.getD_eq_getElem?_getD, List.getElem?_append_right h]

theorem length_flatMap_const {α β : Type} (f : α → List β) (l : List α) (k : Nat)
    (h : ∀ x ∈ l, (f x).length = k) : (l.flatMap f).length = l.length * k := by
  induction l with
  | nil => simp
  | cons x t ih =>
    simp only [List.flatMap_cons, List.length_append, h x (List.mem_cons_self x t),
      List.length_cons, ih fun y hy => h y (List.mem_cons_of_mem x hy)]
    ring

/-- Indexing into a concatenation of equally sized chunks. -/
theorem flatMap_getD {α β : Type} (f : α → List β) (l : List α) (k : Nat)
    (h : ∀ x ∈ l, (f x).length = k) (i j : Nat) (hi : i < l.length) (hj : j < k)
    (d : β) (dA : α) :
    (l.flatMap f).getD (i * k + j) d = (f (l.getD i dA)).getD j d := by
  induction l generalizing i with
  | nil => simp at hi
  | cons x t ih =>
    cases i with
    | zero =>
      simp only [List.flatMap_cons, Nat.zero_mul, Nat.zero_add, List.getD_cons_zero]
      exact getD_append_left (by rw [h x (List.mem_cons_self x t)]; exact hj) d
    | succ i =>
      simp only [List.flatMap_cons, List.getD_cons_succ]
      have hx : (f x).length = k := h x (List.mem_cons_self x t)
      have hidx : (i + 1) * k + j = (f x).length + (i * k + j) := by
        rw [hx, Nat.succ_mul]
        omega
      rw [hidx, getD_append_right (Nat.le_add_right _ _) d, Nat.add_sub_cancel_left]
      exact ih (fun y hy => h y (List.mem_cons_of_mem x hy)) i
        (Nat.lt_of_succ_lt_succ hi)

theorem map_range_getD {β : Type} (l : List β) (d : β) :
    (List.range l.length).map (fun i => l.getD i d) = l := by
  apply List.ext_getElem
  · simp
  · intro i h1 h2
    simp [List.getD_eq_getElem?_getD, List.getElem?_eq_getElem h2]

theorem getD_mem {β : Type} (l : List β) (i : Nat) (d : β) (h : i < l.length) :
    l.getD i d ∈ l := by
  have : l.getD i d = l[i] := by
    simp [List.getD_eq_getElem?_getD, List.getElem?_eq_getElem h]
  rw [this]
  exact List.getElem_mem h

/-- Reading back a concatenation of encoded f32 words recovers the words. -/
theorem readF32s_flatMap (e : Endian) (xs : List Nat)
    (h : ∀ x ∈ xs, x < 2 ^ 32) :
    readF32s e xs.length (xs.flatMap (f32ToBytes e)) = Except.ok xs := by
  have hlen : (xs.flatMap (f32ToBytes e)).length = xs.length * 4 :=
    length_flatMap_const _ _ 4 (fun x _ => f32ToBytes_length e x)
  unfold readF32s
  rw [hlen, if_neg (by omega)]
  congr 1
  have hpt : ∀ i ∈ List.range xs.length,
      f32FromBytes e ((xs.flatMap (f32ToBytes e)).getD (4 * i) 0)
        ((xs.flatMap (f32ToBytes e)).getD (4 * i + 1) 0)
        ((xs.flatMap (f32ToBytes e)).getD (4 * i + 2) 0)
        ((xs.flatMap (f32ToBytes e)).getD (4 * i + 3) 0) = xs.getD i 0 := by
    intro i hi
    rw [List.mem_range] at hi
    have hk : ∀ x ∈ xs, (f32ToBytes e x).length = 4 := fun x _ => f32ToBytes_length e x
    have h40 : 4 * i = i * 4 + 0 := by ring
    have h41 : 4 * i + 1 = i * 4 + 1 := by ring
    have h42 : 4 * i + 2 = i * 4 + 2 := by ring
    have h43 : 4 * i + 3 = i * 4 + 3 := by ring
    rw [h43, h42, h41, h40,
      flatMap_getD _ _ 4 hk i 0 hi (by norm_num) 0 0,
      flatMap_getD _ _ 4 hk i 1 hi (by norm_num) 0 0,
      flatMap_getD _ _ 4 hk i 2 hi (by norm_num) 0 0,
      flatMap_getD _ _ 4 hk i 3 hi (by norm_num) 0 0]
    exact f32FromBytes_f32ToBytes e (h _ (getD_mem xs i 0 hi))
  rw [List.map_congr_left hpt, map_range_getD]

/-! ### Lemmas about the vertical flip -/

theorem swapIdx_length (l : List Nat) (a b : Nat) :
    (swapIdx l a b).length = l.length := by
  simp [swapIdx]

theorem swapIdx_getD (l : List Nat) (a b i : Nat) (ha : a < l.length)
    (hb : b < l.length) :
    (swapIdx l a b).getD i 0 =
      if i = b then l.getD a 0 else if i = a then l.getD b 0 else l.getD i 0 := by
  unfold swapIdx
  by_cases hib : i = b
  · rw [if_pos hib, hib]
    have hb' : b < (l.set a (l.getD b 0)).length := by simpa using hb
    rw [List.getD_eq_getElem?_getD, List.getElem?_set_self hb']
    rfl
  · rw [if_neg hib]
    have hbi : b ≠ i := fun hh => hib hh.symm
    by_cases hia : i = a
    · have hba : b ≠ a := fun hh => hib (by rw [hia, hh])
      rw [if_pos hia, hia, List.getD_eq_getElem?_getD, List.getElem?_set_ne hba,
        List.getElem?_set_self ha]
      rfl
    · have hai : a ≠ i := fun hh => hia hh.symm
      rw [if_neg hia, List.getD_eq_getElem?_getD, List.getElem?_set_ne hbi,
        List.getElem?_set_ne hai]
      simp [List.getD_eq_getElem?_getD]

theorem swapCols_length (n : Nat) : ∀ (l : List Nat) (aB bB : Nat),
    (swapCols aB bB n l).length = l.length := by
  induction n with
  | zero => intro l aB bB; rfl
  | succ n ih =>
    intro l aB bB
    rw [swapCols, ih, swapIdx_length]

theorem swapCols_getD (n : Nat) : ∀ (l : List Nat) (aB bB i : Nat),
    aB + n ≤ bB → bB + n ≤ l.length →
    (swapCols aB bB n l).getD i 0 =
      if aB ≤ i ∧ i < aB + n then l.getD (i - aB + bB) 0
      else if bB ≤ i ∧ i < bB + n then l.getD (i - bB + aB) 0
      else l.getD i 0 := by
  induction n with
  | zero =>
    intro l aB bB i _ _
    rw [swapCols, if_neg (by omega), if_neg (by omega)]
  | succ n ih =>
    intro l aB bB i hab hbl
    have haL : aB < l.length := by omega
    have hbL : bB < l.length := by omega
    have hlen : (swapIdx l aB bB).length = l.length := swapIdx_length l aB bB
    rw [swapCols, ih (swapIdx l aB bB) (aB + 1) (bB + 1) i (by omega)
      (by rw [hlen]; omega)]
    rw [swapIdx_getD l aB bB (i - (aB + 1) + (bB + 1)) haL hbL,
      swapIdx_getD l aB bB (i - (bB + 1) + (aB + 1)) haL hbL,
      swapIdx_getD l aB bB i haL hbL]
    split_ifs <;> first
      | rfl
      | omega
      | (congr 1; omega)

/-- The inner column loop exchanges exactly rows `a` and `b`. -/
theorem swapCols_row_getD (l : List Nat) (W a b q c : Nat)
    (hab : a < b) (hbl : b * W + W ≤ l.length) (hc : c < W) :
    (swapCols (a * W) (b * W) W l).getD (q * W + c) 0 =
      if q = a then l.getD (b * W + c) 0
      else if q = b then l.getD (a * W + c) 0
      else l.getD (q * W + c) 0 := by
  have hA : a * W + W ≤ b * W := by
    have := Nat.mul_le_mul_right W hab
    rw [Nat.succ_mul] at this
    exact this
  rw [swapCols_getD W l (a * W) (b * W) (q * W + c) hA hbl]
  rcases Nat.lt_trichotomy q a with hqa | rfl | haq
  · have h1 : q * W + W ≤ a * W := by
      have := Nat.mul_le_mul_right W hqa
      rw [Nat.succ_mul] at this
      exact this
    have h2 : q * W + W ≤ b * W := by omega
    rw [if_neg (by omega), if_neg (by omega), if_neg (by omega),
      if_neg (by omega)]
  · rw [if_pos (by omega), if_pos rfl]
    congr 1
    omega
  · rcases Nat.lt_trichotomy q b with hqb | rfl | hbq
    · have h1 : a * W + W ≤ q * W := by
        have := Nat.mul_le_mul_right W haq
        rw [Nat.succ_mul] at this
        exact this
      have h2 : q * W + W ≤ b * W := by
        have := Nat.mul_le_mul_right W hqb
        rw [Nat.succ_mul] at this
        exact this
      rw [if_neg (by omega), if_neg (by omega), if_neg (by omega),
        if_neg (by omega)]
    · have h1 : a * W + W ≤ q * W := by
        have := Nat.mul_le_mul_right W haq
        rw [Nat.succ_mul] at this
        exact this
      rw [if_neg (by omega), if_pos (by omega), if_neg (by omega),
        if_pos rfl]
      congr 1
      omega
    · have h1 : a * W + W ≤ q * W := by
        have := Nat.mul_le_mul_right W haq
        rw [Nat.succ_mul] at this
        exact this
      have h2 : b * W + W ≤ q * W := by
        have := Nat.mul_le_mul_right W hbq
        rw [Nat.succ_mul] at this
        exact this
      rw [if_neg (by omega), if_neg (by omega), if_neg (by omega),
        if_neg (by omega)]

theorem flipAux_length (W h : Nat) (fuel : Nat) : ∀ (row : Nat) (l : List Nat),
    (flipAux W h row fuel l).length = l.length := by
  induction fuel with
  | zero => intro row l; rfl
  | succ fuel ih =>
    intro row l
    rw [flipAux]
    by_cases hbr : h - 1 - row ≤ row
    · rw [if_pos hbr]
    · rw [if_neg hbr, ih, swapCols_length]

/-- Effect of the row loop from `row` on: inside the still-active band the
result holds the mirrored row, outside it the list is untouched. -/
theorem flipAux_getD (W h : Nat) (fuel : Nat) : ∀ (row : Nat) (l : List Nat),
    l.length = h * W → h ≤ row + fuel →
    ∀ r c, r < h → c < W →
      (flipAux W h row fuel l).getD (r * W + c) 0 =
        if row ≤ r ∧ r + row < h then l.getD ((h - 1 - r) * W + c) 0
        else l.getD (r * W + c) 0 := by
  induction fuel with
  | zero =>
    intro row l _ hfuel r c hr hc
    rw [flipAux, if_neg (by omega)]
  | succ fuel ih =>
    intro row l hlen hfuel r c hr hc
    rw [flipAux]
    by_cases hbr : h - 1 - row ≤ row
    · rw [if_pos hbr]
      by_cases hcond : row ≤ r ∧ r + row < h
      · rw [if_pos hcond]
        have hrr : h - 1 - r = r := by omega
        rw [hrr]
      · rw [if_neg hcond]
    · rw [if_neg hbr]
      have hlen' : (swapCols (row * W) ((h - 1 - row) * W) W l).length = h * W := by
        rw [swapCols_length, hlen]
      have hmir : (h - 1 - row) * W + W ≤ l.length := by
        have h2 := Nat.mul_le_mul_right W (show (h - 1 - row) + 1 ≤ h by omega)
        rw [Nat.succ_mul] at h2
        omega
      rw [ih (row + 1) _ hlen' (by omega) r c hr hc]
      have hswap := fun q : Nat => swapCols_row_getD l W row (h - 1 - row) q c
        (by omega) hmir hc
      by_cases h1 : row + 1 ≤ r ∧ r + (row + 1) < h
      · rw [if_pos h1]
        have hm : h - 1 - r < h := by omega
        rw [hswap (h - 1 - r)]
        rw [if_neg (by omega), if_neg (by omega), if_pos (by omega)]
      · rw [if_neg h1]
        by_cases hr0 : r = row
        · rw [hswap r]
          rw [if_pos hr0, if_pos (by omega)]
          rw [hr0]
        · by_cases hrm : r = h - 1 - row
          · rw [hswap r]
            rw [if_neg hr0, if_pos hrm, if_pos (by omega)]
            have : h - 1 - r = row := by omega
            rw [this]
          · rw [hswap r]
            rw [if_neg hr0, if_neg hrm, if_neg (by omega)]

theorem verticalFlip_length (W h : Nat) (l : List Nat) :
    (verticalFlip W h l).length = l.length := flipAux_length W h h 0 l

/-- The decode flip sends logical row `r` to row `h - 1 - r`. -/
theorem verticalFlip_getD (W h : Nat) (l : List Nat) (hlen : l.length = h * W)
    (r c : Nat) (hr : r < h) (hc : c < W) :
    (verticalFlip W h l).getD (r * W + c) 0 = l.getD ((h - 1 - r) * W + c) 0 := by
  unfold verticalFlip
  rw [flipAux_getD W h h 0 l hlen (by omega) r c hr hc, if_pos (by omega)]

theorem getElem_eq_getD {β : Type} (l : List β) (i : Nat) (d : β)
    (h : i < l.length) : l[i] = l.getD i d := by
  simp [List.getD_eq_getElem?_getD, List.getElem?_eq_getElem h]

theorem verticalFlip_flip_getD (W h : Nat) (l : List Nat)
    (hlen : l.length = h * W) (r c : Nat) (hr : r < h) (hc : c < W) :
    (verticalFlip W h (verticalFlip W h l)).getD (r * W + c) 0 =
      l.getD (r * W + c) 0 := by
  have hlen1 : (verticalFlip W h l).length = h * W := by
    rw [verticalFlip_length, hlen]
  rw [verticalFlip_getD W h _ hlen1 r c hr hc,
    verticalFlip_getD W h l hlen (h - 1 - r) c (by omega) hc]
  have hrr : h - 1 - (h - 1 - r) = r := by omega
  rw [hrr]

/-- The decode flip applied twice restores the data. -/
theorem verticalFlip_involutive (W h : Nat) (l : List Nat)
    (hlen : l.length = h * W) :
    verticalFlip W h (verticalFlip W h l) = l := by
  apply List.ext_getElem
  · rw [verticalFlip_length, verticalFlip_length]
  · intro i h1 h2
    have hW : W ≠ 0 := by
      rintro rfl
      rw [hlen, Nat.mul_zero] at h2
      omega
    have hWpos : 0 < W := Nat.pos_of_ne_zero hW
    have hc : i % W < W := Nat.mod_lt _ hWpos
    have hi' : i < h * W := by rw [← hlen]; exact h2
    have hr : i / W < h := (Nat.div_lt_iff_lt_mul hWpos).mpr hi'
    have hdecomp : i / W * W + i % W = i := Nat.div_add_mod' i W
    have e1 := verticalFlip_flip_getD W h l hlen (i / W) (i % W) hr hc
    rw [hdecomp] at e1
    rw [getElem_eq_getD _ _ 0 h1, getElem_eq_getD _ _ 0 h2]
    exact e1

/-! ### The payload written by encode, as a sample sequence -/

/-- The samples of `data` (a `h × W` grid) listed with rows in reverse
order: exactly the sample order `encode` writes to disk. -/
def revRowsSamples (W h : Nat) (data : List Nat) : List Nat :=
  (List.range h).reverse.flatMap (fun row =>
    (List.range W).map (fun col => data.getD (row * W + col) 0))

theorem encodePayload_eq (pfm : PFM) :
    encodePayload pfm =
      (revRowsSamples (pfm.width * (if pfm.color then 3 else 1)) pfm.height
        pfm.data).flatMap (f32ToBytes pfm.endian) := by
  simp only [encodePayload, revRowsSamples, List.flatMap_assoc, List.flatMap_map,
    Nat.mul_assoc]

theorem revRowsSamples_length (W h : Nat) (data : List Nat) :
    (revRowsSamples W h data).length = h * W := by
  unfold revRowsSamples
  rw [length_flatMap_const _ _ W (by intro x _; simp)]
  simp

theorem revRowsSamples_getD (W h : Nat) (data : List Nat) (r c : Nat)
    (hr : r < h) (hc : c < W) :
    (revRowsSamples W h data).getD (r * W + c) 0 =
      data.getD ((h - 1 - r) * W + c) 0 := by
  unfold revRowsSamples
  rw [flatMap_getD _ _ W (by intro x _; simp) r c (by simpa using hr) hc 0 0]
  have hrow : (List.range h).reverse.getD r 0 = h - 1 - r := by
    rw [← getElem_eq_getD ((List.range h).reverse) r 0 (by simpa using hr)]
    rw [List.getElem_reverse]
    simp
  rw [hrow, ← getElem_eq_getD _ c 0 (by simpa using hc)]
  simp

theorem verticalFlip_revRows_getD (W h : Nat) (data : List Nat)
    (r c : Nat) (hr : r < h) (hc : c < W) :
    (verticalFlip W h (revRowsSamples W h data)).getD (r * W + c) 0 =
      data.getD (r * W + c) 0 := by
  rw [verticalFlip_getD W h _ (revRowsSamples_length W h data) r c hr hc,
    revRowsSamples_getD W h data (h - 1 - r) c (by omega) hc]
  have hrr : h - 1 - (h - 1 - r) = r := by omega
  rw [hrr]

/-- Flipping the bottom-to-top sample order recovers the logical order. -/
theorem verticalFlip_revRows (W h : Nat) (data : List Nat)
    (hlen : data.length = h * W) :
    verticalFlip W h (revRowsSamples W h data) = data := by
  apply List.ext_getElem
  · rw [verticalFlip_length, revRowsSamples_length, hlen]
  · intro i h1 h2
    have hW : W ≠ 0 := by
      rintro rfl
      rw [hlen, Nat.mul_zero] at h2
      omega
    have hWpos : 0 < W := Nat.pos_of_ne_zero hW
    have hc : i % W < W := Nat.mod_lt _ hWpos
    have hi' : i < h * W := by rw [← hlen]; exact h2
    have hr : i / W < h := (Nat.div_lt_iff_lt_mul hWpos).mpr hi'
    have hdecomp : i / W * W + i % W = i := Nat.div_add_mod' i W
    have e1 := verticalFlip_revRows_getD W h data (i / W) (i % W) hr hc
    rw [hdecomp] at e1
    rw [getElem_eq_getD _ _ 0 h1, getElem_eq_getD _ _ 0 h2]
    exact e1

/-! ### Header parsing of a well-formed header -/

theorem readUntilSpace_cons_ws (d : Nat) (hd : isWsByte d = true)
    (buf : List Nat) : readUntilSpace (d :: buf) = readUntilSpace buf := by
  unfold readUntilSpace
  rw [List.dropWhile_cons]
  simp [hd]

/-- Running `parse_header` on a header of the exact shape `encode` emits:
magic line, then `"<w> <h>\n"`, then a whitespace-free scale token and a
newline, then the payload. -/
theorem parseHeader_wellFormed (tc : F32TextCodec) (color : Bool) (w h : Nat)
    (ftext payload : List Nat) (s : Nat) (b2 : PFM)
    (hw : 0 < w) (hh : 0 < h)
    (hf : tc.parse ftext = some s) (hfne : ftext ≠ [])
    (hfws : ∀ c ∈ ftext, isWsByte c = false)
    (hsz : eqZeroF32 s = false)
    (hb2 : scaleSet { width := w, height := h, color := color,
                      scale_factor := 0x3F800000, endian := Endian.Little,
                      data := [] } s = Except.ok b2) :
    parseHeader tc
      ((if color then [0x50, 0x46] else [0x50, 0x66]) ++ [0x0A] ++ natDecimal w
        ++ [0x20] ++ natDecimal h ++ [0x0A] ++ ftext ++ [0x0A] ++ payload)
      = Except.ok (b2, payload) := by
  have hw0 : ¬ w = 0 := by omega
  have hh0 : ¬ h = 0 := by omega
  have hshape : (if color then [0x50, 0x46] else [0x50, 0x66]) ++ [0x0A]
      ++ natDecimal w ++ [0x20] ++ natDecimal h ++ [0x0A] ++ ftext ++ [0x0A]
      ++ payload =
      (if color then [0x50, 0x46] else [0x50, 0x66]) ++ 0x0A ::
        (natDecimal w ++ 0x20 :: (natDecimal h ++ 0x0A ::
          (ftext ++ 0x0A :: payload))) := by
    simp
  rw [hshape]
  have e1 : readUntilSpace ((if color then [0x50, 0x46] else [0x50, 0x66])
      ++ 0x0A :: (natDecimal w ++ 0x20 :: (natDecimal h ++ 0x0A ::
        (ftext ++ 0x0A :: payload)))) =
      Except.ok ((if color then [0x50, 0x46] else [0x50, 0x66]),
        0x0A :: (natDecimal w ++ 0x20 :: (natDecimal h ++ 0x0A ::
          (ftext ++ 0x0A :: payload)))) := by
    cases color <;>
      exact readUntilSpace_token _ _ _ (by decide) (by decide) (by decide)
  have e2 : readUntilSpace (natDecimal w ++ 0x20 :: (natDecimal h ++ 0x0A ::
      (ftext ++ 0x0A :: payload))) =
      Except.ok (natDecimal w, 0x20 :: (natDecimal h ++ 0x0A ::
        (ftext ++ 0x0A :: payload))) :=
    readUntilSpace_token _ _ _ (natDecimal_ne_nil w) (natDecimal_not_ws w)
      (by decide)
  have e3 : readUntilSpace (natDecimal h ++ 0x0A :: (ftext ++ 0x0A :: payload)) =
      Except.ok (natDecimal h, 0x0A :: (ftext ++ 0x0A :: payload)) :=
    readUntilSpace_token _ _ _ (natDecimal_ne_nil h) (natDecimal_not_ws h)
      (by decide)
  have e4 : readUntilSpace (ftext ++ 0x0A :: payload) =
      Except.ok (ftext, 0x0A :: payload) :=
    readUntilSpace_token _ _ _ hfne hfws (by decide)
  have emagic : parseMagic (if color then [0x50, 0x46] else [0x50, 0x66]) =
      Except.ok color := by
    cases color <;> rfl
  simp only [parseHeader, e1, emagic,
    readUntilSpace_cons_ws 0x0A (by decide),
    readUntilSpace_cons_ws 0x20 (by decide), e2, e3, e4,
    parseUsize_natDecimal, hw0, hh0, if_false,
    sizeSet, colorSet, builderNew, hw, hh, and_self, true_and, and_true,
    if_true, hf, hsz, Bool.false_eq_true, reduceIte]
  rw [hb2]

theorem revRowsSamples_mem (W h : Nat) (data : List Nat) :
    ∀ x ∈ revRowsSamples W h data, x ∈ data ∨ x = 0 := by
  intro x hx
  unfold revRowsSamples at hx
  simp only [List.mem_flatMap, List.mem_map] at hx
  obtain ⟨row, _, col, _, rfl⟩ := hx
  by_cases hi : row * W + col < data.length
  · exact Or.inl (getD_mem data _ 0 hi)
  · right
    rw [List.getD_eq_getElem?_getD, List.getElem?_eq_none (by omega)]
    rfl

theorem gtZeroF32_eq_false_of_ltZeroF32 {x : Nat} (h : ltZeroF32 x = true) :
    gtZeroF32 x = false := by
  simp only [ltZeroF32, Bool.and_eq_true, Bool.not_eq_true', bne_iff_ne, ne_eq,
    beq_iff_eq] at h
  unfold gtZeroF32
  have hs : (x &&& f32SignMask == 0) = false := by
    simp only [beq_eq_false_iff_ne, ne_eq]
    exact h.1.2
  rw [hs]
  simp

theorem scaleSet_encodeScaleBits (w h : Nat) (color : Bool) (sf : Nat)
    (en : Endian) (data : List Nat) (hsf : gtZeroF32 sf = true) :
    scaleSet { width := w, height := h, color := color,
               scale_factor := 0x3F800000, endian := Endian.Little,
               data := [] }
      (encodeScaleBits (PFM.mk w h color sf en data)) =
    Except.ok { width := w, height := h, color := color, scale_factor := sf,
                endian := en, data := [] } := by
  cases en
  · -- Big: scale bits are sf itself
    have hsz : eqZeroF32 sf = false := eqZeroF32_of_gtZeroF32 hsf
    simp only [encodeScaleBits, scaleSet, hsz, Bool.false_eq_true, if_false,
      hsf, if_true]
  · -- Little: scale bits are negF32 sf
    have hlt : ltZeroF32 (negF32 sf) = true := ltZeroF32_negF32 hsf
    have hgt : gtZeroF32 (negF32 sf) = false := gtZeroF32_eq_false_of_ltZeroF32 hlt
    have hsz : eqZeroF32 (negF32 sf) = false := eqZeroF32_of_ltZeroF32 hlt
    simp only [encodeScaleBits, scaleSet, hsz, Bool.false_eq_true, if_false,
      hgt, hlt, if_true, negF32_negF32]

theorem eqZero_encodeScaleBits (w h : Nat) (color : Bool) (sf : Nat)
    (en : Endian) (data : List Nat) (hsf : gtZeroF32 sf = true) :
    eqZeroF32 (encodeScaleBits (PFM.mk w h color sf en data)) = false := by
  cases en
  · exact eqZeroF32_of_gtZeroF32 hsf
  · exact eqZeroF32_of_ltZeroF32 (ltZeroF32_negF32 hsf)

theorem pfm_roundtrip_aux (tc : F32TextCodec) (w h : Nat) (color : Bool)
    (sf : Nat) (en : Endian) (data : List Nat)
    (hw : 0 < w) (hh : 0 < h)
    (hlen : data.length = w * h * (if color then 3 else 1))
    (hsf : gtZeroF32 sf = true)
    (hdata : ∀ x ∈ data, x < 2 ^ 32)
    (hfmt : tc.parse (tc.fmt (encodeScaleBits (PFM.mk w h color sf en data)))
      = some (encodeScaleBits (PFM.mk w h color sf en data)))
    (hfne : tc.fmt (encodeScaleBits (PFM.mk w h color sf en data)) ≠ [])
    (hfws : ∀ c ∈ tc.fmt (encodeScaleBits (PFM.mk w h color sf en data)),
      isWsByte c = false) :
    ∃ bytes, encode tc (PFM.mk w h color sf en data) = Except.ok bytes ∧
      decode tc bytes = Except.ok (PFM.mk w h color sf en data) := by
  have hsz : eqZeroF32 sf = false := eqZeroF32_of_gtZeroF32 hsf
  have henc : encode tc (PFM.mk w h color sf en data) = Except.ok
      ((if color then [0x50, 0x46] else [0x50, 0x66]) ++ [0x0A] ++ natDecimal w
        ++ [0x20] ++ natDecimal h ++ [0x0A]
        ++ tc.fmt (encodeScaleBits (PFM.mk w h color sf en data)) ++ [0x0A]
        ++ encodePayload (PFM.mk w h color sf en data)) := by
    simp only [encode]
    rw [if_neg (show ¬(w = 0 ∨ h = 0) by omega)]
    rw [if_neg (show ¬(eqZeroF32 sf = true) by simp [hsz])]
    rw [if_neg (show ¬(w * h * (if color then 3 else 1) ≠ data.length) from
      fun hne => hne hlen.symm)]
  refine ⟨_, henc, ?_⟩
  have hb2 := scaleSet_encodeScaleBits w h color sf en data hsf
  have hph := parseHeader_wellFormed tc color w h
    (tc.fmt (encodeScaleBits (PFM.mk w h color sf en data)))
    (encodePayload (PFM.mk w h color sf en data))
    (encodeScaleBits (PFM.mk w h color sf en data)) _ hw hh hfmt hfne hfws
    (eqZero_encodeScaleBits w h color sf en data hsf) hb2
  simp only [decode, hph]
  have hplen : (encodePayload (PFM.mk w h color sf en data)).length =
      h * (w * (if color = true then 3 else 1)) * 4 := by
    rw [encodePayload_eq,
      length_flatMap_const _ _ 4 (fun x _ => f32ToBytes_length _ x),
      revRowsSamples_length]
  have hsize : (w * h * if color = true then 3 else 1) =
      (encodePayload (PFM.mk w h color sf en data)).length / 4 := by
    rw [hplen]
    have h4 : h * (w * (if color = true then 3 else 1)) * 4 / 4 =
        h * (w * (if color = true then 3 else 1)) := by omega
    rw [h4]
    ring
  have hread : readF32s en (w * h * (if color = true then 3 else 1))
      (encodePayload (PFM.mk w h color sf en data)) =
      Except.ok (revRowsSamples (w * (if color = true then 3 else 1)) h data) := by
    have hxs : ∀ x ∈ revRowsSamples (w * (if color = true then 3 else 1)) h data,
        x < 2 ^ 32 := by
      intro x hx
      rcases revRowsSamples_mem _ _ _ x hx with hmem | rfl
      · exact hdata x hmem
      · norm_num
    have hcnt : w * h * (if color = true then 3 else 1) =
        (revRowsSamples (w * (if color = true then 3 else 1)) h data).length := by
      rw [revRowsSamples_length]
      ring
    rw [hcnt, encodePayload_eq]
    exact readF32s_flatMap en _ hxs
  rw [if_neg (fun hne => hne hsize)]
  simp only [hread]
  rw [verticalFlip_revRows (w * (if color = true then 3 else 1)) h data
    (by rw [hlen]; ring)]
  simp only [dataSet, build]
  rw [if_neg (show ¬(data.length ≠ (if color = true then 3 else 1) * (w * h))
    from fun hne => hne (by rw [hlen]; ring))]

/-! ### Inversion on successful header parses -/

theorem readUntilSpace_error_inv (buf : List Nat) (e : PFMError)
    (h : readUntilSpace buf = Except.error e) : e = PFMError.unexpectedEof := by
  simp only [readUntilSpace] at h
  split at h
  · exact (Except.error.inj h).symm
  · exact Except.noConfusion h

theorem parseMagic_error_inv (tok : List Nat) (e : PFMError)
    (h : parseMagic tok = Except.error e) :
    e = PFMError.oobPanic ∨ e = PFMError.invalidMagic := by
  unfold parseMagic at h
  split at h
  · exact Or.inl (Except.error.inj h).symm
  · split at h
    · exact Or.inr (Except.error.inj h).symm
    · exact Or.inl (Except.error.inj h).symm
  · split at h
    · exact Or.inr (Except.error.inj h).symm
    · split at h
      · exact Except.noConfusion h
      · split at h
        · exact Except.noConfusion h
        · exact Or.inr (Except.error.inj h).symm

/-- Every builder state a successful `parse_header` returns has positive
dimensions and a strictly positive stored scale factor. -/
theorem parseHeader_ok_inv (tc : F32TextCodec) (buf : List Nat) (b : PFM)
    (rest : List Nat) (hph : parseHeader tc buf = Except.ok (b, rest)) :
    0 < b.width ∧ 0 < b.height ∧ gtZeroF32 b.scale_factor = true := by
  unfold parseHeader at hph
  rcases h1 : readUntilSpace buf with e1 | ⟨tok1, buf1⟩ <;> rw [h1] at hph <;> simp only [] at hph
  · simp at hph
  rcases h2 : parseMagic tok1 with e2 | color <;> rw [h2] at hph <;> simp only [] at hph
  · simp at hph
  rcases h3 : readUntilSpace buf1 with e3 | ⟨tok2, buf2⟩ <;> rw [h3] at hph <;> simp only [] at hph
  · simp at hph
  rcases h4 : parseUsize tok2 with _ | width <;> rw [h4] at hph <;> simp only [] at hph
  · simp at hph
  by_cases hw0 : width = 0
  · rw [if_pos hw0] at hph
    simp at hph
  rw [if_neg hw0] at hph
  rcases h5 : readUntilSpace buf2 with e5 | ⟨tok3, buf3⟩ <;> rw [h5] at hph <;> simp only [] at hph
  · simp at hph
  rcases h6 : parseUsize tok3 with _ | height <;> rw [h6] at hph <;> simp only [] at hph
  · simp at hph
  by_cases hh0 : height = 0
  · rw [if_pos hh0] at hph
    simp at hph
  rw [if_neg hh0] at hph
  rcases h7 : sizeSet (colorSet builderNew color) width height with e7 | b1 <;>
    rw [h7] at hph <;> simp only [] at hph
  · simp at hph
  rcases h8 : readUntilSpace buf3 with e8 | ⟨tok4, buf4⟩ <;> rw [h8] at hph <;> simp only [] at hph
  · simp at hph
  rcases h9 : tc.parse tok4 with _ | scale <;> rw [h9] at hph <;> simp only [] at hph
  · simp at hph
  by_cases hsz : eqZeroF32 scale = true
  · rw [if_pos hsz] at hph
    simp at hph
  rw [if_neg hsz] at hph
  rcases h10 : scaleSet b1 scale with e10 | b2 <;> rw [h10] at hph <;> simp only [] at hph
  · simp at hph
  rcases hb4 : buf4 with _ | ⟨sep, payload⟩ <;> rw [hb4] at hph <;> simp only [] at hph
  · simp at hph
  simp only [Except.ok.injEq, Prod.mk.injEq] at hph
  obtain ⟨hbb, -⟩ := hph
  -- extract the builder from sizeSet
  unfold sizeSet at h7
  split at h7
  · rename_i hpos
    have hb1 := Except.ok.inj h7
    unfold scaleSet at h10
    rw [if_neg hsz] at h10
    have hb2 := Except.ok.inj h10
    rw [← hbb, ← hb2]
    split
    · rename_i hgt
      refine ⟨?_, ?_, hgt⟩ <;> rw [← hb1] <;> [exact hpos.1; exact hpos.2]
    · split
      · rename_i hlt
        refine ⟨?_, ?_, gtZeroF32_negF32 hlt⟩ <;> rw [← hb1] <;>
          [exact hpos.1; exact hpos.2]
      · refine ⟨?_, ?_, ?_⟩ <;> rw [← hb1]
        · exact hpos.1
        · exact hpos.2
        · simp only [colorSet, builderNew]
          decide
  · exact Except.noConfusion h7

theorem build_ok_inv {b img : PFM} (h : build b = Except.ok img) : img = b := by
  simp only [build] at h
  split at h <;>
    first
    | exact Except.noConfusion h
    | exact (Except.ok.inj h).symm
    | (split at h <;>
        first
        | exact Except.noConfusion h
        | exact (Except.ok.inj h).symm)

theorem build_error_inv {b : PFM} {e : PFMError} (h : build b = Except.error e) :
    e = PFMError.dataLengthMismatch := by
  simp only [build] at h
  split at h <;>
    first
    | exact (Except.error.inj h).symm
    | exact Except.noConfusion h
    | (split at h <;>
        first
        | exact (Except.error.inj h).symm
        | exact Except.noConfusion h)

/-- Every image `decode` returns has positive dimensions and a strictly
positive stored scale factor. -/
theorem decode_ok_inv (tc : F32TextCodec) (buf : List Nat) (img : PFM)
    (hd : decode tc buf = Except.ok img) :
    0 < img.width ∧ 0 < img.height ∧ gtZeroF32 img.scale_factor = true := by
  unfold decode at hd
  rcases h1 : parseHeader tc buf with e | ⟨b, rest⟩ <;> rw [h1] at hd <;>
    simp only [] at hd
  · exact Except.noConfusion hd
  have hinv := parseHeader_ok_inv tc buf b rest h1
  by_cases hcond : b.width * b.height * (if b.color then 3 else 1) ≠
      rest.length / 4
  · rw [if_pos hcond] at hd
    exact Except.noConfusion hd
  rw [if_neg hcond] at hd
  rcases h2 : readF32s b.endian
      (b.width * b.height * (if b.color then 3 else 1)) rest with e2 | ds <;>
    rw [h2] at hd <;> simp only [] at hd
  · exact Except.noConfusion hd
  have himg := build_ok_inv hd
  rw [himg]
  simpa [dataSet] using hinv

theorem parseHeader_error_ne_truncated (tc : F32TextCodec) (buf : List Nat)
    (e : PFMError) (hph : parseHeader tc buf = Except.error e) :
    e ≠ PFMError.truncatedPayload := by
  unfold parseHeader at hph
  rcases h1 : readUntilSpace buf with e1 | ⟨tok1, buf1⟩ <;> rw [h1] at hph <;>
    simp only [] at hph
  · rw [readUntilSpace_error_inv buf e1 h1] at hph
    rw [← Except.error.inj hph]
    simp
  rcases h2 : parseMagic tok1 with e2 | color <;> rw [h2] at hph <;>
    simp only [] at hph
  · rcases parseMagic_error_inv tok1 e2 h2 with h | h <;> rw [h] at hph <;>
      rw [← Except.error.inj hph] <;> simp
  rcases h3 : readUntilSpace buf1 with e3 | ⟨tok2, buf2⟩ <;> rw [h3] at hph <;>
    simp only [] at hph
  · rw [readUntilSpace_error_inv buf1 e3 h3] at hph
    rw [← Except.error.inj hph]
    simp
  rcases h4 : parseUsize tok2 with _ | width <;> rw [h4] at hph <;>
    simp only [] at hph
  · rw [← Except.error.inj hph]
    simp
  by_cases hw0 : width = 0
  · rw [if_pos hw0] at hph
    rw [← Except.error.inj hph]
    simp
  rw [if_neg hw0] at hph
  rcases h5 : readUntilSpace buf2 with e5 | ⟨tok3, buf3⟩ <;> rw [h5] at hph <;>
    simp only [] at hph
  · rw [readUntilSpace_error_inv buf2 e5 h5] at hph
    rw [← Except.error.inj hph]
    simp
  rcases h6 : parseUsize tok3 with _ | height <;> rw [h6] at hph <;>
    simp only [] at hph
  · rw [← Except.error.inj hph]
    simp
  by_cases hh0 : height = 0
  · rw [if_pos hh0] at hph
    rw [← Except.error.inj hph]
    simp
  rw [if_neg hh0] at hph
  rcases h7 : sizeSet (colorSet builderNew color) width height with e7 | b1 <;>
    rw [h7] at hph <;> simp only [] at hph
  · unfold sizeSet at h7
    split at h7
    · exact Except.noConfusion h7
    · rw [← Except.error.inj h7] at hph
      rw [← Except.error.inj hph]
      simp
  rcases h8 : readUntilSpace buf3 with e8 | ⟨tok4, buf4⟩ <;> rw [h8] at hph <;>
    simp only [] at hph
  · rw [readUntilSpace_error_inv buf3 e8 h8] at hph
    rw [← Except.error.inj hph]
    simp
  rcases h9 : tc.parse tok4 with _ | scale <;> rw [h9] at hph <;>
    simp only [] at hph
  · rw [← Except.error.inj hph]
    simp
  by_cases hsz : eqZeroF32 scale = true
  · rw [if_pos hsz] at hph
    rw [← Except.error.inj hph]
    simp
  rw [if_neg hsz] at hph
  rcases h10 : scaleSet b1 scale with e10 | b2 <;> rw [h10] at hph <;>
    simp only [] at hph
  · unfold scaleSet at h10
    rw [if_neg hsz] at h10
    exact Except.noConfusion h10
  rcases hb4 : buf4 with _ | ⟨sep, payload⟩ <;> rw [hb4] at hph <;>
    simp only [] at hph
  · rw [← Except.error.inj hph]
    simp
  · exact Except.noConfusion hph

/-- The `"File data is broken"` branch of `decode` is unreachable: once the
payload size check has passed, the numeric read cannot run out of bytes. -/
theorem decode_ne_truncated (tc : F32TextCodec) (buf : List Nat) :
    decode tc buf ≠ Except.error PFMError.truncatedPayload := by
  intro hd
  unfold decode at hd
  rcases h1 : parseHeader tc buf with e | ⟨b, rest⟩ <;> rw [h1] at hd <;>
    simp only [] at hd
  · exact parseHeader_error_ne_truncated tc buf e h1 (Except.error.inj hd)
  by_cases hcond : b.width * b.height * (if b.color then 3 else 1) ≠
      rest.length / 4
  · rw [if_pos hcond] at hd
    exact PFMError.noConfusion (Except.error.inj hd)
  rw [if_neg hcond] at hd
  rcases h2 : readF32s b.endian (b.width * b.height * (if b.color then 3 else 1))
      rest with e2 | ds <;> rw [h2] at hd <;> simp only [] at hd
  · unfold readF32s at h2
    by_cases hlt : rest.length <
        4 * (b.width * b.height * (if b.color then 3 else 1))
    · omega
    · rw [if_neg hlt] at h2
      exact Except.noConfusion h2
  · exact PFMError.noConfusion (build_error_inv hd)

/-- After a successful header parse, `decode` reports `PayloadSizeMismatch`
exactly when `width * height * channels` differs from `payload_len / 4`
(integer division), and otherwise succeeds. -/
theorem decode_payload_size (tc : F32TextCodec) (buf : List Nat) (b : PFM)
    (payload : List Nat)
    (hph : parseHeader tc buf = Except.ok (b, payload)) :
    (decode tc buf = Except.error PFMError.payloadSizeMismatch ↔
      b.width * b.height * (if b.color then 3 else 1) ≠ payload.length / 4)
    ∧ (b.width * b.height * (if b.color then 3 else 1) = payload.length / 4 →
        ∃ img, decode tc buf = Except.ok img) := by
  have hd : decode tc buf =
      (if b.width * b.height * (if b.color then 3 else 1) ≠ payload.length / 4
       then Except.error PFMError.payloadSizeMismatch
       else match readF32s b.endian
              (b.width * b.height * (if b.color then 3 else 1)) payload with
            | Except.error e => Except.error e
            | Except.ok ds => build (dataSet b
                (verticalFlip (b.width * (if b.color then 3 else 1))
                  b.height ds))) := by
    unfold decode
    rw [hph]
  by_cases hcond : b.width * b.height * (if b.color then 3 else 1) ≠
      payload.length / 4
  · rw [if_pos hcond] at hd
    exact ⟨⟨fun _ => hcond, fun _ => hd⟩, fun heq => absurd heq hcond⟩
  · rw [if_neg hcond] at hd
    have heq : b.width * b.height * (if b.color then 3 else 1) =
        payload.length / 4 := by
      by_contra hne
      exact hcond hne
    have hread : ∃ ds : List Nat, readF32s b.endian
        (b.width * b.height * (if b.color then 3 else 1)) payload =
          Except.ok ds ∧
        ds.length = b.width * b.height * (if b.color then 3 else 1) := by
      unfold readF32s
      rw [if_neg (by omega)]
      exact ⟨_, rfl, by simp⟩
    obtain ⟨ds, hr, hdslen⟩ := hread
    rw [hr] at hd
    simp only [] at hd
    have hc2 : ¬((verticalFlip (b.width * (if b.color then 3 else 1))
        b.height ds).length ≠ (if b.color then 3 else 1) *
          (b.width * b.height)) := by
      rw [verticalFlip_length, hdslen]
      intro hne
      exact hne (by ring)
    simp only [build, dataSet] at hd
    rw [if_neg hc2] at hd
    refine ⟨⟨fun habs => ?_, fun hne => absurd heq hne⟩, fun _ => ⟨_, hd⟩⟩
    rw [hd] at habs
    exact Except.noConfusion habs

/-! ### Concrete inputs used by witnesses and counterexamples -/

/-- A 1×2 monochrome little-endian image for the round-trip witness. -/
def imgDemo : PFM :=
  { width := 1, height := 2, color := false, scale_factor := 0x3F800000,
    endian := Endian.Little, data := [0x3F000000, 0x3F800000] }

/-- Buffer with a valid header (`"Pf\n1 1\n1\n"`) and a 5-byte payload:
one byte longer than the 4 bytes the 1×1 monochrome header calls for. -/
def c2buf : List Nat :=
  [0x50, 0x66, 0x0A, 0x31, 0x20, 0x31, 0x0A, 0x31, 0x0A, 1, 2, 3, 4, 99]

/-- Buffer `"PF\n1 1\n1.0"`: ends immediately after the scale token. -/
def c3buf : List Nat :=
  [0x50, 0x46, 0x0A, 0x31, 0x20, 0x31, 0x0A, 0x31, 0x2E, 0x30]

/-- Buffer `"Pf\n1 1\n1\n"` with exactly 4 payload bytes: decodes cleanly. -/
def c5buf : List Nat :=
  [0x50, 0x66, 0x0A, 0x31, 0x20, 0x31, 0x0A, 0x31, 0x0A, 0, 0, 0, 0]

/-- The 1×3 color little-endian image of the byte-exact encode scenario
(the repository's own `test_write_into` fixture): data rows are
[0.5 0.5 0.5], [0.5 0.5 0.5], [1 1 1] top to bottom. -/
def img9 : PFM :=
  { width := 1, height := 3, color := true, scale_factor := 0x3F800000,
    endian := Endian.Little,
    data := [0x3F000000, 0x3F000000, 0x3F000000, 0x3F000000, 0x3F000000,
             0x3F000000, 0x3F800000, 0x3F800000, 0x3F800000] }

/-- The expected encoding of `img9`: header `"PF\n1 3\n-1\n"` followed by
the nine little-endian float words with rows written bottom row first. -/
def bytes9 : List Nat :=
  [0x50, 0x46, 0x0A, 0x31, 0x20, 0x33, 0x0A, 0x2D, 0x31, 0x0A,
   0x00, 0x00, 0x80, 0x3F, 0x00, 0x00, 0x80, 0x3F, 0x00, 0x00, 0x80, 0x3F,
   0x00, 0x00, 0x00, 0x3F, 0x00, 0x00, 0x00, 0x3F, 0x00, 0x00, 0x00, 0x3F,
   0x00, 0x00, 0x00, 0x3F, 0x00, 0x00, 0x00, 0x3F, 0x00, 0x00, 0x00, 0x3F]

/-! ### Claim theorems -/

/-- Claim C1: for every image satisfying the builder invariant (positive
dimensions, data length `width * height * channels`, and the positive
stored scale factor every builder-produced value has), decoding the bytes
produced by encoding it returns the image unchanged — width, height,
color, endian, scale factor and the full data sequence all preserved.
The decimal float text codec (Rust standard library) enters through the
hypotheses: its output for the written scale is a non-empty
whitespace-free token that parses back to the same bit pattern (Rust
float formatting's documented round-trip guarantee). -/
theorem claim_C1_roundtrip (tc : F32TextCodec) (I : PFM)
    (hw : 0 < I.width) (hh : 0 < I.height)
    (hlen : I.data.length = I.width * I.height * (if I.color then 3 else 1))
    (hsf : gtZeroF32 I.scale_factor = true)
    (hdata : ∀ x ∈ I.data, x < 2 ^ 32)
    (hfmt : tc.parse (tc.fmt (encodeScaleBits I)) = some (encodeScaleBits I))
    (hfne : tc.fmt (encodeScaleBits I) ≠ [])
    (hfws : ∀ c ∈ tc.fmt (encodeScaleBits I), isWsByte c = false) :
    ∃ bytes, encode tc I = Except.ok bytes ∧ decode tc bytes = Except.ok I := by
  obtain ⟨w, h, color, sf, en, data⟩ := I
  exact pfm_roundtrip_aux tc w h color sf en data hw hh hlen hsf hdata hfmt
    hfne hfws

/-- Witness for C1 at a concrete 1×2 image and the demo text codec. -/
theorem claim_C1_roundtrip_witness :
    ∃ bytes, encode tcDemo imgDemo = Except.ok bytes ∧
      decode tcDemo bytes = Except.ok imgDemo :=
  claim_C1_roundtrip tcDemo imgDemo (by decide) (by decide) (by decide)
    (by decide) (by decide) (by decide) (by decide) (by decide)

/-- Claim C2 is false as stated: the size check divides the payload length
by 4 with integer (floor) division, so a payload of 4n+1..4n+3 bytes
passes the check and the trailing bytes are silently ignored.  Here a
valid header for a 1×1 monochrome image is followed by 5 payload bytes —
not 4, and not a multiple of 4 — yet decode succeeds. -/
theorem claim_C2_payload_size_counterexample :
    parseHeader tcDemo c2buf = Except.ok
      ({ width := 1, height := 1, color := false, scale_factor := 0x3F800000,
         endian := Endian.Big, data := [] }, [1, 2, 3, 4, 99]) ∧
    ([1, 2, 3, 4, 99] : List Nat).length ≠ 4 * (1 * 1 * 1) ∧
    decode tcDemo c2buf = Except.ok
      { width := 1, height := 1, color := false, scale_factor := 0x3F800000,
        endian := Endian.Big, data := [0x01020304] } :=
  ⟨rfl, by decide, rfl⟩

/-- Claim C2 (amended): after a valid header, decode fails with
PayloadSizeMismatch exactly when `width * height * channels` differs from
`payload_len / 4` under integer division — payload lengths in
`[4n, 4n+3]` are accepted (trailing bytes ignored) and decode then
succeeds. -/
theorem claim_C2_payload_size (tc : F32TextCodec) (buf : List Nat) (b : PFM)
    (payload : List Nat)
    (hph : parseHeader tc buf = Except.ok (b, payload)) :
    (decode tc buf = Except.error PFMError.payloadSizeMismatch ↔
      b.width * b.height * (if b.color then 3 else 1) ≠ payload.length / 4)
    ∧ (b.width * b.height * (if b.color then 3 else 1) = payload.length / 4 →
        ∃ img, decode tc buf = Except.ok img) :=
  decode_payload_size tc buf b payload hph

/-- Witness for C2 (amended) on the 5-byte-payload buffer. -/
theorem claim_C2_payload_size_witness :
    (decode tcDemo c2buf = Except.error PFMError.payloadSizeMismatch ↔
      (1 : Nat) * 1 * (if false then 3 else 1) ≠
        ([1, 2, 3, 4, 99] : List Nat).length / 4)
    ∧ ((1 : Nat) * 1 * (if false then 3 else 1) =
        ([1, 2, 3, 4, 99] : List Nat).length / 4 →
        ∃ img, decode tcDemo c2buf = Except.ok img) :=
  claim_C2_payload_size tcDemo c2buf
    { width := 1, height := 1, color := false, scale_factor := 0x3F800000,
      endian := Endian.Big, data := [] } [1, 2, 3, 4, 99] rfl

/-- Claim C3: the code does NOT return UnexpectedEof on a buffer ending
right after the scale token — `parse_header` evaluates `&buffer[1..]` on
an empty remainder, which is an out-of-bounds slice index, i.e. a panic.
On the concrete buffer `"PF\n1 1\n1.0"` decode reaches that panic. -/
theorem claim_C3_eof_after_scale :
    decode tcDemo c3buf = Except.error PFMError.oobPanic := rfl

/-- Claim C4: the magic handling is only partly as claimed.  A first byte
other than `'P'` and a second byte other than `'F'`/`'f'` do give
InvalidMagic, and `"PF"`/`"Pf"` select color/monochrome — but on a
one-byte magic token the code indexes `header_pf[1]` out of bounds and
panics instead of returning InvalidMagic, as the buffer `"P "` shows. -/
theorem claim_C4_magic :
    parseMagic [0x50, 0x46] = Except.ok true ∧
    parseMagic [0x50, 0x66] = Except.ok false ∧
    parseMagic [0x51, 0x46] = Except.error PFMError.invalidMagic ∧
    parseMagic [0x50, 0x47] = Except.error PFMError.invalidMagic ∧
    decode tcDemo [0x50, 0x20] = Except.error PFMError.oobPanic :=
  ⟨rfl, rfl, rfl, rfl, rfl⟩

/-- Claim C5 is false for the builder path: `build` only checks the data
length, and after `PFMBuilder::new()` (width 0, height 0, empty data) the
check `0 = 3 * (0 * 0)` passes, so `build()` succeeds with a zero-sized
image. -/
theorem claim_C5_positive_size_counterexample :
    build builderNew = Except.ok builderNew ∧ builderNew.width = 0 ∧
      builderNew.height = 0 :=
  ⟨rfl, rfl, rfl⟩

/-- Claim C5 (amended): every image value returned by decode has strictly
positive width and height (the header parser rejects zero dimensions);
`build()` alone does not enforce this — `PFMBuilder::new().build()`
succeeds with width = height = 0 and empty data. -/
theorem claim_C5_positive_size (tc : F32TextCodec) (buf : List Nat)
    (img : PFM) (hd : decode tc buf = Except.ok img) :
    0 < img.width ∧ 0 < img.height :=
  ⟨(decode_ok_inv tc buf img hd).1, (decode_ok_inv tc buf img hd).2.1⟩

/-- Witness for C5 (amended) on a concretely decoded 1×1 image. -/
theorem claim_C5_positive_size_witness :
    0 < ({ width := 1, height := 1, color := false,
           scale_factor := 0x3F800000, endian := Endian.Big,
           data := [0] } : PFM).width ∧
    0 < ({ width := 1, height := 1, color := false,
           scale_factor := 0x3F800000, endian := Endian.Big,
           data := [0] } : PFM).height :=
  claim_C5_positive_size tcDemo c5buf _ rfl

/-- Claim C6: `build` fails with DataLengthMismatch exactly when
`data.len() ≠ width * height * channels`, and otherwise returns the
builder's fields unchanged, so every image it returns satisfies the
length invariant. -/
theorem claim_C6_build (b : PFM) :
    (build b = Except.error PFMError.dataLengthMismatch ↔
      b.data.length ≠ b.width * b.height * (if b.color then 3 else 1))
    ∧ (b.data.length = b.width * b.height * (if b.color then 3 else 1) →
      build b = Except.ok b) := by
  have hcomm : (if b.color then 3 else 1) * (b.width * b.height) =
      b.width * b.height * (if b.color then 3 else 1) := by ring
  by_cases hcond : b.data.length ≠
      (if b.color then 3 else 1) * (b.width * b.height)
  · have hb : build b = Except.error PFMError.dataLengthMismatch := by
      simp only [build]
      rw [if_pos hcond]
    refine ⟨⟨fun _ => ?_, fun _ => hb⟩, fun hlen => absurd ?_ hcond⟩
    · rw [← hcomm]
      exact hcond
    · rw [hlen, hcomm]
  · have heqv : b.data.length =
        (if b.color then 3 else 1) * (b.width * b.height) := by
      by_contra hne
      exact hcond hne
    have hb : build b = Except.ok b := by
      simp only [build]
      rw [if_neg hcond]
    refine ⟨⟨fun habs => ?_, fun hne => absurd ?_ hne⟩, fun _ => hb⟩
    · rw [hb] at habs
      exact Except.noConfusion habs
    · rw [heqv, hcomm]

/-- Witness for C6 on a concrete 2×1 color builder state. -/
theorem claim_C6_build_witness :
    build { width := 2, height := 1, color := true,
            scale_factor := 0x3F800000, endian := Endian.Big,
            data := [1, 2, 3, 4, 5, 6] } =
      Except.ok { width := 2, height := 1, color := true,
                  scale_factor := 0x3F800000, endian := Endian.Big,
                  data := [1, 2, 3, 4, 5, 6] } :=
  (claim_C6_build _).2 (by decide)

/-- Claim C7: a strictly positive scale selects Big endian and is stored
as is; a strictly negative scale selects Little endian and is stored
negated, hence positive; `encode` writes the stored scale for Big and its
negation (a negative value) for Little; and every image decode returns
carries a strictly positive stored scale factor. -/
theorem claim_C7_scale_endian :
    (∀ (b : PFM) (s : Nat), gtZeroF32 s = true →
      scaleSet b s =
        Except.ok { b with endian := Endian.Big, scale_factor := s }) ∧
    (∀ (b : PFM) (s : Nat), ltZeroF32 s = true →
      scaleSet b s = Except.ok { b with endian := Endian.Little,
                                        scale_factor := negF32 s } ∧
        gtZeroF32 (negF32 s) = true) ∧
    (∀ pfm : PFM,
      (pfm.endian = Endian.Big → encodeScaleBits pfm = pfm.scale_factor) ∧
      (pfm.endian = Endian.Little →
        encodeScaleBits pfm = negF32 pfm.scale_factor ∧
        (gtZeroF32 pfm.scale_factor = true →
          ltZeroF32 (negF32 pfm.scale_factor) = true))) ∧
    (∀ (tc : F32TextCodec) (buf : List Nat) (img : PFM),
      decode tc buf = Except.ok img → gtZeroF32 img.scale_factor = true) := by
  refine ⟨?_, ?_, ?_, ?_⟩
  · intro b s hgt
    unfold scaleSet
    rw [if_neg (by simp [eqZeroF32_of_gtZeroF32 hgt]), if_pos hgt]
  · intro b s hlt
    refine ⟨?_, gtZeroF32_negF32 hlt⟩
    unfold scaleSet
    rw [if_neg (by simp [eqZeroF32_of_ltZeroF32 hlt]),
      if_neg (by simp [gtZeroF32_eq_false_of_ltZeroF32 hlt]), if_pos hlt]
  · intro pfm
    constructor
    · intro hE
      unfold encodeScaleBits
      rw [hE]
    · intro hE
      refine ⟨?_, fun hgt => ltZeroF32_negF32 hgt⟩
      unfold encodeScaleBits
      rw [hE]
  · intro tc buf img hd
    exact (decode_ok_inv tc buf img hd).2.2

/-- Witness for C7 at the bit pattern of -1.0 (negative scale ⇒ Little
endian, stored magnitude positive). -/
theorem claim_C7_scale_endian_witness :
    scaleSet builderNew 0xBF800000 =
      Except.ok { builderNew with endian := Endian.Little,
                                  scale_factor := negF32 0xBF800000 } ∧
    gtZeroF32 (negF32 0xBF800000) = true :=
  claim_C7_scale_endian.2.1 builderNew 0xBF800000 (by decide)

/-- Claim C8: on data of the checked length, the decode flip exchanges
whole rows `r` and `height - 1 - r`, leaves a middle row in place
(`h - 1 - r = r` there), and applying it twice restores the data. -/
theorem claim_C8_vertical_flip (W h : Nat) (l : List Nat)
    (hlen : l.length = h * W) :
    (verticalFlip W h l).length = h * W ∧
    (∀ r c, r < h → c < W →
      (verticalFlip W h l).getD (r * W + c) 0 =
        l.getD ((h - 1 - r) * W + c) 0) ∧
    verticalFlip W h (verticalFlip W h l) = l := by
  refine ⟨?_, ?_, verticalFlip_involutive W h l hlen⟩
  · rw [verticalFlip_length, hlen]
  · intro r c hr hc
    exact verticalFlip_getD W h l hlen r c hr hc

/-- Witness for C8 on a 3×2 grid. -/
theorem claim_C8_vertical_flip_witness :
    (verticalFlip 2 3 [1, 2, 3, 4, 5, 6]).length = 3 * 2 ∧
    (verticalFlip 2 3 [1, 2, 3, 4, 5, 6]).getD (0 * 2 + 1) 0 =
      ([1, 2, 3, 4, 5, 6] : List Nat).getD ((3 - 1 - 0) * 2 + 1) 0 ∧
    verticalFlip 2 3 (verticalFlip 2 3 [1, 2, 3, 4, 5, 6]) =
      [1, 2, 3, 4, 5, 6] :=
  ⟨(claim_C8_vertical_flip 2 3 [1, 2, 3, 4, 5, 6] (by decide)).1,
   (claim_C8_vertical_flip 2 3 [1, 2, 3, 4, 5, 6] (by decide)).2.1 0 1
     (by decide) (by decide),
   (claim_C8_vertical_flip 2 3 [1, 2, 3, 4, 5, 6] (by decide)).2.2⟩

/-- Claim C9: encoding the 1×3 color little-endian image with scale 1.0
and data [0.5 ×6, 1.0 ×3] produces exactly `"PF\n1 3\n-1\n"` followed by
the nine samples as little-endian float32 words, logical rows written
last to first, with no padding.  The only external fact used is that
Rust prints -1.0f32 as `"-1"` (hypothesis `hf`). -/
theorem claim_C9_encode_example (tc : F32TextCodec)
    (hf : tc.fmt 0xBF800000 = [0x2D, 0x31]) :
    encode tc img9 = Except.ok bytes9 := by
  have hd1 : natDecimal 1 = [0x31] := by
    unfold natDecimal
    rw [if_neg (by norm_num), Nat.digits_def' (by norm_num : (1 : Nat) < 10)
      (by norm_num : (0 : Nat) < 1)]
    norm_num
  have hd3 : natDecimal 3 = [0x33] := by
    unfold natDecimal
    rw [if_neg (by norm_num), Nat.digits_def' (by norm_num : (1 : Nat) < 10)
      (by norm_num : (0 : Nat) < 3)]
    norm_num
  unfold encode
  rw [if_neg (by decide), if_neg (by decide), if_neg (by decide)]
  rw [show encodeScaleBits img9 = 0xBF800000 from rfl, hf,
    show natDecimal img9.width = [0x31] from hd1,
    show natDecimal img9.height = [0x33] from hd3]
  rfl

/-- Witness for C9 at the demo text codec. -/
theorem claim_C9_encode_example_witness :
    encode tcDemo img9 = Except.ok bytes9 :=
  claim_C9_encode_example tcDemo rfl

/-- Claim C10: the `"File data is broken"` (truncated payload) branch of
decode is unreachable — once the size check `n = len / 4` has passed,
`4 * n ≤ len`, so the numeric read always succeeds; decode never returns
that error on any input. -/
theorem claim_C10_no_truncated (tc : F32TextCodec) (buf : List Nat) :
    decode tc buf ≠ Except.error PFMError.truncatedPayload :=
  decode_ne_truncated tc buf
